import Mathlib

/-!
# Verification of the `sclock` timing registry (`sclock/clock.py`)

Shallow embedding of the `Clock` class.  Durations and timestamps are
modelled as exact rationals (`ℚ`); Python's float arithmetic is abstracted
to exact arithmetic.  The internal `defaultdict(list)` time bank is
modelled as an insertion-ordered association list `Bank`; reading
`self._time_bank[label]` is `bankGet`, which — like `defaultdict.__getitem__`
— inserts the label with an empty list when it is absent and returns the
stored list together with the (possibly grown) mapping.  Every query method
therefore returns a pair: its Python return value and the resulting bank.
The wall-clock source `time.perf_counter()` is an external input, so
timestamps appear as explicit parameters.
-/

namespace SClock

/-- The `_time_bank` mapping: labels to their recorded duration lists,
in insertion order (Python dicts preserve insertion order). -/
abbrev Bank : Type := List (String × List ℚ)

/-- Dictionary key lookup: the value stored at `l`, if present. -/
def bankFind : Bank → String → Option (List ℚ)
  | [], _ => none
  | (k, v) :: rest, l => if k = l then some v else bankFind rest l

/-- `self._time_bank[label]` on a `defaultdict(list)`: returns the stored
list, inserting `label ↦ []` first when the key is absent
(auto-vivification).  The second component is the mapping afterwards. -/
def bankGet (b : Bank) (l : String) : List ℚ × Bank :=
  match bankFind b l with
  | some ts => (ts, b)
  | none => ([], b ++ [(l, [])])

/-- In-place `list.append` on the entry stored at `l` (first occurrence). -/
def bankUpdate : Bank → String → ℚ → Bank
  | [], _, _ => []
  | (k, v) :: rest, l, x =>
    if k = l then (k, v ++ [x]) :: rest else (k, v) :: bankUpdate rest l x

/-- `self._time_bank[label].append(x)`: `__getitem__` (vivifying when
absent) followed by an in-place append on the retrieved list. -/
def bankAppend (b : Bank) (l : String) (x : ℚ) : Bank :=
  bankUpdate (bankGet b l).2 l x

/-- `Clock.get_times`: `return self._time_bank[label]`.  The returned list
is the stored object itself; the bank component records the defaultdict's
growth on an unseen label. -/
def get_times (b : Bank) (label : String) : List ℚ × Bank :=
  bankGet b label

/-- `Clock.mean_time`: `0.0` on an empty list, else `sum(times)/len(times)`. -/
def mean_time (b : Bank) (label : String) : ℚ × Bank :=
  let p := bankGet b label
  match p.1 with
  | [] => (0, p.2)
  | t :: ts => ((t :: ts).sum / (((t :: ts).length : ℕ) : ℚ), p.2)

/-- CPython `statistics.median`: sort the data by value; the middle element
when the length is odd, the average of the two middle elements when even.
(Callers guard against the empty list.) -/
def pyMedian (ts : List ℚ) : ℚ :=
  let s := List.insertionSort (· ≤ ·) ts
  let n := s.length
  if n % 2 = 1 then s.getD (n / 2) 0
  else (s.getD (n / 2 - 1) 0 + s.getD (n / 2) 0) / 2

/-- `Clock.median_time`: `0.0` on an empty list, else `statistics.median(times)`. -/
def median_time (b : Bank) (label : String) : ℚ × Bank :=
  let p := bankGet b label
  match p.1 with
  | [] => (0, p.2)
  | t :: ts => (pyMedian (t :: ts), p.2)

/-- `Clock.min_time`: `0.0` on an empty list, else `min(times)` (a fold of
binary `min` over the items, starting from the first). -/
def min_time (b : Bank) (label : String) : ℚ × Bank :=
  let p := bankGet b label
  match p.1 with
  | [] => (0, p.2)
  | t :: ts => (ts.foldl min t, p.2)

/-- `Clock.max_time`: `0.0` on an empty list, else `max(times)`. -/
def max_time (b : Bank) (label : String) : ℚ × Bank :=
  let p := bankGet b label
  match p.1 with
  | [] => (0, p.2)
  | t :: ts => (ts.foldl max t, p.2)

/-- `Clock.total_time`: `0.0` on an empty list, else `sum(times)`. -/
def total_time (b : Bank) (label : String) : ℚ × Bank :=
  let p := bankGet b label
  match p.1 with
  | [] => (0, p.2)
  | t :: ts => ((t :: ts).sum, p.2)

/-- `Clock.clear_times`: with a label, `self._time_bank.pop(label, None)`
(remove the key if present, silently do nothing otherwise); with no label,
`self._time_bank.clear()`. -/
def clear_times (b : Bank) (label : Option String) : Bank :=
  match label with
  | some lab => List.filter (fun q => decide (q.1 ≠ lab)) b
  | none => []

/-! ## Wrapper capture (`Clock.__call__` / `Clock._decorate_function`)

The decorator's `wrapper` reads `start_time`, calls `func`, reads
`end_time`, appends `end_time - start_time` and returns the result.  The
two `time.perf_counter()` readings are external inputs, passed as the
parameters `tStart` and `tEnd`.  A Python callable that may raise is a
function into `Except ε β`; when it raises, the exception propagates
before `end_time` is read, so the bank is returned unchanged. -/

def wrapperCall {α β ε : Type} (b : Bank) (label : String) (tStart tEnd : ℚ)
    (f : α → Except ε β) (x : α) : Except ε β × Bank :=
  match f x with
  | Except.ok r => (Except.ok r, bankAppend b label (tEnd - tStart))
  | Except.error e => (Except.error e, b)

/-! ## Scoped capture (`using_label` / `__enter__` / `__exit__`)

The `Clock` object's mutable context-manager fields: `_label` (absent
until the first `using_label` call, modelled `none`) and `_start_time`
(absent until the first successful `__enter__`, modelled `none`), next to
the time bank. -/

structure CMState where
  label : Option String
  startTime : Option ℚ
  bank : Bank
deriving DecidableEq

/-- A freshly constructed `Clock` (with bank `b`): neither `_label` nor
`_start_time` exists yet. -/
def initClock (b : Bank) : CMState := ⟨none, none, b⟩

/-- `Clock.using_label`: sets `_label` and returns `self`. -/
def using_label (s : CMState) (l : String) : CMState :=
  { s with label := some l }

/-- The errors the context-manager protocol can raise: `ValueError` from
`__enter__` when no label is configured (the spec's `ConfigurationError`),
and `AttributeError` from `__exit__` when `_start_time` or `_label` was
never set (unreachable under the `with`-statement discipline). -/
inductive CMError where
  | configurationError
  | attributeError
deriving DecidableEq

/-- `Clock.__enter__`: raises when `_label` is absent or `None` — before
`_start_time` is assigned, so the state is unchanged on failure; otherwise
stores the current timestamp `t` in `_start_time` and returns `self`. -/
def cmEnter (s : CMState) (t : ℚ) : Except CMError CMState :=
  match s.label with
  | none => Except.error CMError.configurationError
  | some _ => Except.ok { s with startTime := some t }

/-- `Clock.__exit__`: reads the current timestamp `t` and appends
`t - _start_time` to the bank under `_label`.  It returns `None` (falsy),
so any exception from the block keeps propagating.  `_label` and
`_start_time` are left in place. -/
def cmExit (s : CMState) (t : ℚ) : Except CMError CMState :=
  match s.label, s.startTime with
  | some l, some t0 => Except.ok { s with bank := bankAppend s.bank l (t - t0) }
  | _, _ => Except.error CMError.attributeError

/-- A `with clock ...:` statement around a block whose outcome is `body`
(a normal value or a raised exception): `__enter__` at time `t0`; if it
raises, the block never runs and nothing is recorded; otherwise the block
runs and `__exit__` runs at time `t1` on both normal and exceptional
block exit, after which the block's outcome propagates unchanged. -/
def withBlock {α ε : Type} (s : CMState) (t0 t1 : ℚ) (body : Except ε α) :
    Except CMError (Except ε α × CMState) :=
  match cmEnter s t0 with
  | Except.error e => Except.error e
  | Except.ok s1 =>
    match cmExit s1 t1 with
    | Except.error e => Except.error e
    | Except.ok s2 => Except.ok (body, s2)

/-- The operations a caller can perform on the handle between queries:
configure a label, enter a scope at a timestamp, exit at a timestamp. -/
inductive CMOp where
  | usingLabel (l : String)
  | enterScope (t : ℚ)
  | exitScope (t : ℚ)
deriving DecidableEq

def runOp (s : CMState) : CMOp → Except CMError CMState
  | CMOp.usingLabel l => Except.ok (using_label s l)
  | CMOp.enterScope t => cmEnter s t
  | CMOp.exitScope t => cmExit s t

/-- Run a sequence of handle operations; a raised error aborts the run
(exception propagation). -/
def runOps : CMState → List CMOp → Except CMError CMState
  | s, [] => Except.ok s
  | s, op :: ops =>
    match runOp s op with
    | Except.ok s' => runOps s' ops
    | Except.error e => Except.error e

/-- The spec predicate of claim C5: has a label been set by `usingLabel`
since the handle's creation or since its last scope exit?  (True when some
`usingLabel` occurs after the last `exitScope` of the trace.) -/
def labelSetSinceCreationOrLastExit (ops : List CMOp) : Bool :=
  ops.foldl
    (fun b op =>
      match op with
      | CMOp.usingLabel _ => true
      | CMOp.exitScope _ => false
      | CMOp.enterScope _ => b)
    false

/-- Caller-side in-place mutation of the list returned by `get_times`:
`clock.get_times(label).append(x)`.  `get_times` executes
`return self._time_bank[label]`, so the returned list is the very object
stored in the bank (after defaultdict vivification); an in-place append
on it is an append on the stored entry. -/
def appendToGetTimesResult (b : Bank) (label : String) (x : ℚ) : Bank :=
  bankUpdate (get_times b label).2 label x

/-! ## Lemmas about the bank -/

theorem bankFind_append_some {b : Bank} {l : String} {v : List ℚ} (b2 : Bank)
    (h : bankFind b l = some v) : bankFind (b ++ b2) l = some v := by
  induction b with
  | nil => simp [bankFind] at h
  | cons p rest ih =>
    obtain ⟨k, w⟩ := p
    by_cases hk : k = l
    · subst hk
      simp [bankFind] at h ⊢
      exact h
    · simp [bankFind, hk] at h ⊢
      exact ih h

theorem bankFind_append_none {b : Bank} {l : String} (b2 : Bank)
    (h : bankFind b l = none) : bankFind (b ++ b2) l = bankFind b2 l := by
  induction b with
  | nil => simp [bankFind]
  | cons p rest ih =>
    obtain ⟨k, w⟩ := p
    by_cases hk : k = l
    · subst hk
      simp [bankFind] at h
    · simp [bankFind, hk] at h ⊢
      exact ih h

theorem bankFind_bankGet_self (b : Bank) (l : String) :
    bankFind (bankGet b l).2 l = some ((bankGet b l).1) := by
  cases hb : bankFind b l with
  | some ts => simp [bankGet, hb]
  | none =>
    simp [bankGet, hb]
    rw [bankFind_append_none _ hb]
    simp [bankFind]

theorem bankFind_bankGet_ne (b : Bank) {l l' : String} (h : l' ≠ l) :
    bankFind (bankGet b l).2 l' = bankFind b l' := by
  cases hb : bankFind b l with
  | some ts => simp [bankGet, hb]
  | none =>
    simp [bankGet, hb]
    cases hb' : bankFind b l' with
    | some v => exact bankFind_append_some _ hb'
    | none =>
      rw [bankFind_append_none _ hb']
      have hne : ¬ l = l' := fun hx => h hx.symm
      simp [bankFind, hne]

theorem bankGet_fst (b : Bank) (l : String) :
    (bankGet b l).1 = (bankFind b l).getD [] := by
  cases hb : bankFind b l <;> simp [bankGet, hb]

theorem bankFind_bankUpdate_self {b : Bank} {l : String} {ts : List ℚ} (x : ℚ)
    (h : bankFind b l = some ts) :
    bankFind (bankUpdate b l x) l = some (ts ++ [x]) := by
  induction b with
  | nil => simp [bankFind] at h
  | cons p rest ih =>
    obtain ⟨k, w⟩ := p
    by_cases hk : k = l
    · subst hk
      simp [bankFind] at h
      subst h
      simp [bankUpdate, bankFind]
    · simp [bankFind, hk] at h
      simp [bankUpdate, bankFind, hk]
      exact ih h

theorem bankFind_bankUpdate_ne (b : Bank) {l l' : String} (x : ℚ) (h : l' ≠ l) :
    bankFind (bankUpdate b l x) l' = bankFind b l' := by
  induction b with
  | nil => simp [bankUpdate]
  | cons p rest ih =>
    obtain ⟨k, w⟩ := p
    by_cases hk : k = l
    · subst hk
      have hne : ¬ k = l' := fun hx => h hx.symm
      simp [bankUpdate, bankFind, hne]
    · by_cases hk' : k = l'
      · subst hk'
        simp [bankUpdate, bankFind, hk]
      · simp [bankUpdate, bankFind, hk, hk']
        exact ih

theorem bankFind_bankAppend_self (b : Bank) (l : String) (x : ℚ) :
    bankFind (bankAppend b l x) l = some ((bankGet b l).1 ++ [x]) := by
  unfold bankAppend
  exact bankFind_bankUpdate_self x (bankFind_bankGet_self b l)

theorem bankFind_bankAppend_ne (b : Bank) {l l' : String} (x : ℚ) (h : l' ≠ l) :
    bankFind (bankAppend b l x) l' = bankFind b l' := by
  unfold bankAppend
  rw [bankFind_bankUpdate_ne _ x h]
  exact bankFind_bankGet_ne b h

theorem get_times_bankAppend (b : Bank) (l : String) (x : ℚ) :
    (get_times (bankAppend b l x) l).1 = (get_times b l).1 ++ [x] := by
  unfold get_times
  rw [bankGet_fst, bankFind_bankAppend_self, bankGet_fst]
  simp

/-- All six query results depend on the bank only through `bankFind`. -/
theorem queries_fst_congr {b b2 : Bank} {l l2 : String}
    (h : bankFind b l = bankFind b2 l2) :
    (get_times b l).1 = (get_times b2 l2).1 ∧
    (mean_time b l).1 = (mean_time b2 l2).1 ∧
    (median_time b l).1 = (median_time b2 l2).1 ∧
    (min_time b l).1 = (min_time b2 l2).1 ∧
    (max_time b l).1 = (max_time b2 l2).1 ∧
    (total_time b l).1 = (total_time b2 l2).1 := by
  cases hb : bankFind b l with
  | none =>
    rw [hb] at h
    simp [get_times, mean_time, median_time, min_time, max_time, total_time,
      bankGet, hb, h.symm]
  | some ts =>
    rw [hb] at h
    cases ts with
    | nil =>
      simp [get_times, mean_time, median_time, min_time, max_time, total_time,
        bankGet, hb, h.symm]
    | cons t ts' =>
      simp [get_times, mean_time, median_time, min_time, max_time, total_time,
        bankGet, hb, h.symm]

/-- A label that is absent, or present with an empty list, yields the
"no data" answer from every query. -/
theorem queries_noData (b : Bank) (l : String)
    (h : bankFind b l = none ∨ bankFind b l = some []) :
    (get_times b l).1 = [] ∧ (mean_time b l).1 = 0 ∧ (median_time b l).1 = 0 ∧
    (min_time b l).1 = 0 ∧ (max_time b l).1 = 0 ∧ (total_time b l).1 = 0 := by
  rcases h with h | h <;>
    simp [get_times, mean_time, median_time, min_time, max_time, total_time,
      bankGet, h]

/-! ## Lemmas about folds of binary `min` / `max` (Python `min`, `max`) -/

theorem foldl_min_le_init (ds : List ℚ) : ∀ d : ℚ, List.foldl min d ds ≤ d := by
  induction ds with
  | nil => intro d; simp
  | cons a as ih =>
    intro d
    simp only [List.foldl_cons]
    exact le_trans (ih (min d a)) (min_le_left _ _)

theorem foldl_min_mem (ds : List ℚ) : ∀ d : ℚ, List.foldl min d ds ∈ d :: ds := by
  induction ds with
  | nil => intro d; simp
  | cons a as ih =>
    intro d
    simp only [List.foldl_cons]
    rcases List.mem_cons.mp (ih (min d a)) with h1 | h2
    · rcases min_choice d a with hd | ha
      · rw [h1, hd]; exact List.mem_cons_self _ _
      · rw [h1, ha]; exact List.mem_cons_of_mem _ (List.mem_cons_self _ _)
    · exact List.mem_cons_of_mem _ (List.mem_cons_of_mem _ h2)

theorem foldl_min_le (ds : List ℚ) :
    ∀ d x : ℚ, x ∈ d :: ds → List.foldl min d ds ≤ x := by
  induction ds with
  | nil =>
    intro d x hx
    simp at hx
    simp [hx]
  | cons a as ih =>
    intro d x hx
    simp only [List.foldl_cons]
    rcases List.mem_cons.mp hx with rfl | hx2
    · exact le_trans (foldl_min_le_init as (min x a)) (min_le_left _ _)
    · rcases List.mem_cons.mp hx2 with rfl | hx3
      · exact le_trans (foldl_min_le_init as (min d x)) (min_le_right _ _)
      · exact ih (min d a) x (List.mem_cons_of_mem _ hx3)

theorem init_le_foldl_max (ds : List ℚ) : ∀ d : ℚ, d ≤ List.foldl max d ds := by
  induction ds with
  | nil => intro d; simp
  | cons a as ih =>
    intro d
    simp only [List.foldl_cons]
    exact le_trans (le_max_left _ _) (ih (max d a))

theorem foldl_max_mem (ds : List ℚ) : ∀ d : ℚ, List.foldl max d ds ∈ d :: ds := by
  induction ds with
  | nil => intro d; simp
  | cons a as ih =>
    intro d
    simp only [List.foldl_cons]
    rcases List.mem_cons.mp (ih (max d a)) with h1 | h2
    · rcases max_choice d a with hd | ha
      · rw [h1, hd]; exact List.mem_cons_self _ _
      · rw [h1, ha]; exact List.mem_cons_of_mem _ (List.mem_cons_self _ _)
    · exact List.mem_cons_of_mem _ (List.mem_cons_of_mem _ h2)

theorem le_foldl_max (ds : List ℚ) :
    ∀ d x : ℚ, x ∈ d :: ds → x ≤ List.foldl max d ds := by
  induction ds with
  | nil =>
    intro d x hx
    simp at hx
    simp [hx]
  | cons a as ih =>
    intro d x hx
    simp only [List.foldl_cons]
    rcases List.mem_cons.mp hx with rfl | hx2
    · exact le_trans (le_max_left _ _) (init_le_foldl_max as (max x a))
    · rcases List.mem_cons.mp hx2 with rfl | hx3
      · exact le_trans (le_max_right _ _) (init_le_foldl_max as (max d x))
      · exact ih (max d a) x (List.mem_cons_of_mem _ hx3)

/-! ## Lemmas about `clear_times` -/

theorem bankFind_clear_self (b : Bank) (lab : String) :
    bankFind (clear_times b (some lab)) lab = none := by
  induction b with
  | nil => simp [clear_times, bankFind]
  | cons p rest ih =>
    obtain ⟨k, w⟩ := p
    by_cases hk : k = lab
    · subst hk
      simpa [clear_times, List.filter] using ih
    · simpa [clear_times, List.filter, bankFind, hk] using ih

theorem bankFind_clear_ne (b : Bank) {lab l' : String} (h : l' ≠ lab) :
    bankFind (clear_times b (some lab)) l' = bankFind b l' := by
  induction b with
  | nil => simp [clear_times]
  | cons p rest ih =>
    obtain ⟨k, w⟩ := p
    by_cases hk : k = lab
    · subst hk
      have hne : ¬ k = l' := fun hx => h hx.symm
      simpa [clear_times, List.filter, bankFind, hne] using ih
    · by_cases hk' : k = l'
      · subst hk'
        simp [clear_times, List.filter, bankFind, hk]
      · simpa [clear_times, List.filter, bankFind, hk, hk'] using ih

theorem clear_times_absent (b : Bank) {lab : String}
    (h : bankFind b lab = none) : clear_times b (some lab) = b := by
  induction b with
  | nil => simp [clear_times]
  | cons p rest ih =>
    obtain ⟨k, w⟩ := p
    by_cases hk : k = lab
    · subst hk
      simp [bankFind] at h
    · simp [bankFind, hk] at h
      simp [clear_times, List.filter, hk] at ih ⊢
      exact ih h

/-! ## Lemmas about the context-manager state machine -/

theorem runOp_label (op : CMOp) (s0 s1 : CMState)
    (h : runOp s0 op = Except.ok s1) :
    (s1.label.isSome = true ↔
      (s0.label.isSome = true ∨ ∃ l, op = CMOp.usingLabel l)) := by
  cases op with
  | usingLabel l =>
    simp [runOp] at h
    subst h
    simp [using_label]
  | enterScope t =>
    cases hl : s0.label with
    | none => simp [runOp, cmEnter, hl] at h
    | some l =>
      simp [runOp, cmEnter, hl] at h
      subst h
      simp [hl]
  | exitScope t =>
    cases hl : s0.label with
    | none => simp [runOp, cmExit, hl] at h
    | some l =>
      cases hs : s0.startTime with
      | none => simp [runOp, cmExit, hl, hs] at h
      | some t0 =>
        simp [runOp, cmExit, hl, hs] at h
        subst h
        simp [hl]

theorem runOps_label_isSome : ∀ (ops : List CMOp) (s0 s : CMState),
    runOps s0 ops = Except.ok s →
    (s.label.isSome = true ↔
      (s0.label.isSome = true ∨ ∃ l, CMOp.usingLabel l ∈ ops)) := by
  intro ops
  induction ops with
  | nil =>
    intro s0 s h
    simp [runOps] at h
    subst h
    simp
  | cons op rest ih =>
    intro s0 s h
    cases hop : runOp s0 op with
    | error e => simp [runOps, hop] at h
    | ok s1 =>
      have hrest : runOps s1 rest = Except.ok s := by
        simpa [runOps, hop] using h
      rw [ih s1 s hrest, runOp_label op s0 s1 hop]
      constructor
      · rintro ((hx | ⟨l, rfl⟩) | ⟨l, hl⟩)
        · exact Or.inl hx
        · exact Or.inr ⟨l, List.mem_cons_self _ _⟩
        · exact Or.inr ⟨l, List.mem_cons_of_mem _ hl⟩
      · rintro (hx | ⟨l, hl⟩)
        · exact Or.inl (Or.inl hx)
        · rcases List.mem_cons.mp hl with hl1 | hl2
          · exact Or.inl (Or.inr ⟨l, hl1.symm⟩)
          · exact Or.inr ⟨l, hl2⟩

/-! ## The claims -/

/-- C1: for every label whose recorded sequence is the non-empty list
`d :: ds`, `total_time` equals the sum of the durations, `mean_time`
equals the total divided by the count, and `min_time` / `max_time` are the
least / greatest recorded values. -/
theorem C1_stats_nonempty (b : Bank) (label : String) (d : ℚ) (ds : List ℚ)
    (h : bankFind b label = some (d :: ds)) :
    (total_time b label).1 = (d :: ds).sum ∧
    (mean_time b label).1 = (total_time b label).1 / (((d :: ds).length : ℕ) : ℚ) ∧
    ((min_time b label).1 ∈ d :: ds ∧ ∀ x ∈ d :: ds, (min_time b label).1 ≤ x) ∧
    ((max_time b label).1 ∈ d :: ds ∧ ∀ x ∈ d :: ds, x ≤ (max_time b label).1) := by
  have ht : (total_time b label).1 = (d :: ds).sum := by
    simp [total_time, bankGet, h]
  refine ⟨ht, ?_, ⟨?_, ?_⟩, ⟨?_, ?_⟩⟩
  · rw [ht]
    simp [mean_time, bankGet, h]
  · simpa [min_time, bankGet, h] using foldl_min_mem ds d
  · intro x hx
    simpa [min_time, bankGet, h] using foldl_min_le ds d x hx
  · simpa [max_time, bankGet, h] using foldl_max_mem ds d
  · intro x hx
    simpa [max_time, bankGet, h] using le_foldl_max ds d x hx

theorem C1_witness :
    (total_time [("L", [2, 1])] "L").1 = ([2, 1] : List ℚ).sum ∧
    (mean_time [("L", [2, 1])] "L").1
      = (total_time [("L", [2, 1])] "L").1 / ((([(2 : ℚ), 1].length : ℕ)) : ℚ) ∧
    (min_time [("L", [2, 1])] "L").1 ∈ [(2 : ℚ), 1] ∧
    (max_time [("L", [2, 1])] "L").1 ∈ [(2 : ℚ), 1] :=
  ⟨(C1_stats_nonempty [("L", [2, 1])] "L" 2 [1] (by simp [bankFind])).1,
   (C1_stats_nonempty [("L", [2, 1])] "L" 2 [1] (by simp [bankFind])).2.1,
   (C1_stats_nonempty [("L", [2, 1])] "L" 2 [1] (by simp [bankFind])).2.2.1.1,
   (C1_stats_nonempty [("L", [2, 1])] "L" 2 [1] (by simp [bankFind])).2.2.2.1⟩

/-- C2: `median_time` of a label with a non-empty recorded sequence is
computed from a value-sorted permutation of the sequence — the middle
element when the count is odd, the average of the two middle elements
when even; a label with no data yields `0`; and the recorded sequence
`[0.2, 0.1, 0.4, 0.3]` yields `0.25`. -/
theorem C2_median_time :
    (∀ (b : Bank) (label : String) (t : ℚ) (ts : List ℚ),
      bankFind b label = some (t :: ts) →
      (t :: ts).Perm (List.insertionSort (· ≤ ·) (t :: ts)) ∧
      (List.insertionSort (· ≤ ·) (t :: ts)).Sorted (· ≤ ·) ∧
      (median_time b label).1 =
        (let s := List.insertionSort (· ≤ ·) (t :: ts)
         if s.length % 2 = 1 then s.getD (s.length / 2) 0
         else (s.getD (s.length / 2 - 1) 0 + s.getD (s.length / 2) 0) / 2)) ∧
    (∀ (b : Bank) (label : String),
      bankFind b label = none ∨ bankFind b label = some [] →
      (median_time b label).1 = 0) ∧
    (median_time [("M", [2/10, 1/10, 4/10, 3/10])] "M").1 = 1/4 := by
  refine ⟨?_, ?_, ?_⟩
  · intro b label t ts h
    refine ⟨(List.perm_insertionSort _ _).symm, List.sorted_insertionSort _ _, ?_⟩
    simp [median_time, bankGet, h, pyMedian]
  · intro b label h
    exact (queries_noData b label h).2.2.1
  · norm_num [median_time, bankGet, bankFind, pyMedian, List.insertionSort,
      List.orderedInsert]

theorem C2_witness :
    ([(3 : ℚ), 1, 2]).Perm (List.insertionSort (· ≤ ·) [(3 : ℚ), 1, 2]) ∧
    (List.insertionSort (· ≤ ·) [(3 : ℚ), 1, 2]).Sorted (· ≤ ·) :=
  ⟨(C2_median_time.1 [("L", [3, 1, 2])] "L" 3 [1, 2] (by simp [bankFind])).1,
   (C2_median_time.1 [("L", [3, 1, 2])] "L" 3 [1, 2] (by simp [bankFind])).2.1⟩

/-- C3: a label absent from the bank, or present with an empty sequence,
gives the same "no data" answers: `get_times` is empty and the five
statistics are `0`.  (The query functions are total, so no query on an
unseen label can fail.) -/
theorem C3_unseen_label (b : Bank) (label : String)
    (h : bankFind b label = none ∨ bankFind b label = some []) :
    (get_times b label).1 = [] ∧ (mean_time b label).1 = 0 ∧
    (median_time b label).1 = 0 ∧ (min_time b label).1 = 0 ∧
    (max_time b label).1 = 0 ∧ (total_time b label).1 = 0 :=
  queries_noData b label h

theorem C3_witness :
    (get_times [] "x").1 = [] ∧ (mean_time [] "x").1 = 0 ∧
    (median_time [] "x").1 = 0 ∧ (min_time [] "x").1 = 0 ∧
    (max_time [] "x").1 = 0 ∧ (total_time [] "x").1 = 0 :=
  C3_unseen_label [] "x" (Or.inl rfl)

/-- C4: the wrapped callable built by the decorator: on a normal return it
yields exactly `f`'s value and appends the single sample
`tEnd - tStart` to the label's sequence; when `f` raises, the same error
propagates and the bank is unchanged (no sample recorded). -/
theorem C4_wrapper {α β ε : Type} (b : Bank) (label : String)
    (tStart tEnd : ℚ) (f : α → Except ε β) (x : α) :
    (∀ r : β, f x = Except.ok r →
      wrapperCall b label tStart tEnd f x
        = (Except.ok r, bankAppend b label (tEnd - tStart)) ∧
      (get_times (bankAppend b label (tEnd - tStart)) label).1
        = (get_times b label).1 ++ [tEnd - tStart]) ∧
    (∀ e : ε, f x = Except.error e →
      wrapperCall b label tStart tEnd f x = (Except.error e, b)) := by
  constructor
  · intro r hr
    exact ⟨by simp [wrapperCall, hr], get_times_bankAppend b label (tEnd - tStart)⟩
  · intro e he
    simp [wrapperCall, he]

theorem C4_witness :
    wrapperCall [] "w" 0 1 (fun n : ℕ => (Except.ok n : Except ℕ ℕ)) 5
      = (Except.ok 5, bankAppend [] "w" (1 - 0)) ∧
    (get_times (bankAppend [] "w" (1 - 0)) "w").1
      = (get_times [] "w").1 ++ [1 - 0] :=
  (C4_wrapper [] "w" 0 1 (fun n : ℕ => (Except.ok n : Except ℕ ℕ)) 5).1 5 rfl

/-- C10: querying a label absent from the mapping inserts it with an
empty sequence (`defaultdict` auto-vivification) — for `get_times` and
each of the five statistics — while the public result is still the
"no data" value. -/
theorem C10_autovivification (b : Bank) (label : String)
    (h : bankFind b label = none) :
    (bankFind (get_times b label).2 label = some [] ∧ (get_times b label).1 = []) ∧
    (bankFind (mean_time b label).2 label = some [] ∧ (mean_time b label).1 = 0) ∧
    (bankFind (median_time b label).2 label = some [] ∧ (median_time b label).1 = 0) ∧
    (bankFind (min_time b label).2 label = some [] ∧ (min_time b label).1 = 0) ∧
    (bankFind (max_time b label).2 label = some [] ∧ (max_time b label).1 = 0) ∧
    (bankFind (total_time b label).2 label = some [] ∧ (total_time b label).1 = 0) := by
  have hfind : bankFind (b ++ [(label, [])]) label = some [] := by
    rw [bankFind_append_none _ h]
    simp [bankFind]
  refine ⟨⟨?_, ?_⟩, ⟨?_, ?_⟩, ⟨?_, ?_⟩, ⟨?_, ?_⟩, ⟨?_, ?_⟩, ⟨?_, ?_⟩⟩ <;>
    simp [get_times, mean_time, median_time, min_time, max_time, total_time,
      bankGet, h, hfind]

theorem C10_witness :
    (bankFind (get_times [] "x").2 "x" = some [] ∧ (get_times [] "x").1 = []) ∧
    (bankFind (mean_time [] "x").2 "x" = some [] ∧ (mean_time [] "x").1 = 0) ∧
    (bankFind (median_time [] "x").2 "x" = some [] ∧ (median_time [] "x").1 = 0) ∧
    (bankFind (min_time [] "x").2 "x" = some [] ∧ (min_time [] "x").1 = 0) ∧
    (bankFind (max_time [] "x").2 "x" = some [] ∧ (max_time [] "x").1 = 0) ∧
    (bankFind (total_time [] "x").2 "x" = some [] ∧ (total_time [] "x").1 = 0) :=
  C10_autovivification [] "x" rfl

/-- C5 (amended): scope entry fails with the configuration error exactly
when no label has ever been set via `using_label` since the handle's
creation — the configured label persists across scope exits, so no fresh
`using_label` is needed before re-entry; on failure no scope is started
and the whole `with` statement fails without recording; on success the
start timestamp is stored and the handle returned. -/
theorem C5_enter_configuration {α ε : Type} (b0 : Bank) (ops : List CMOp)
    (s : CMState) (t t1 : ℚ) (body : Except ε α)
    (h : runOps (initClock b0) ops = Except.ok s) :
    ((∃ l, CMOp.usingLabel l ∈ ops) ↔ (cmEnter s t).isOk = true) ∧
    ((cmEnter s t).isOk = true →
      cmEnter s t = Except.ok { s with startTime := some t }) ∧
    ((cmEnter s t).isOk = false →
      cmEnter s t = Except.error CMError.configurationError ∧
      withBlock s t t1 body = Except.error CMError.configurationError) := by
  have hiff := runOps_label_isSome ops (initClock b0) s h
  simp [initClock] at hiff
  cases hl : s.label with
  | none =>
    have hnotex : ¬ ∃ l, CMOp.usingLabel l ∈ ops := by
      intro hex
      have hsome := hiff.mpr hex
      rw [hl] at hsome
      simp at hsome
    have h1 : cmEnter s t = Except.error CMError.configurationError := by
      simp [cmEnter, hl]
    refine ⟨?_, ?_, ?_⟩
    · constructor
      · intro hex
        exact absurd hex hnotex
      · intro hok
        rw [h1] at hok
        simp [Except.isOk, Except.toBool] at hok
    · intro hok
      rw [h1] at hok
      simp [Except.isOk, Except.toBool] at hok
    · intro _
      exact ⟨h1, by simp [withBlock, h1]⟩
  | some l =>
    have hex : ∃ l', CMOp.usingLabel l' ∈ ops := by
      apply hiff.mp
      rw [hl]
      rfl
    refine ⟨⟨fun _ => ?_, fun _ => hex⟩, fun _ => ?_, fun hbad => ?_⟩
    · simp [cmEnter, hl, Except.isOk, Except.toBool]
    · simp [cmEnter, hl]
    · simp [cmEnter, hl, Except.isOk, Except.toBool] at hbad

theorem C5_witness : (cmEnter ⟨some "y", none, ([] : Bank)⟩ 3).isOk = true :=
  (C5_enter_configuration [] [CMOp.usingLabel "y"] ⟨some "y", none, []⟩ 3 4
      (Except.ok 0 : Except ℕ ℕ) rfl).1.mp ⟨"y", List.mem_cons_self _ _⟩

/-- C5 counterexample: after `using_label "x"` and a completed
enter/exit pair, no label has been set since the last scope exit, yet
re-entering the scope succeeds — the code keeps `_label` across exits,
so entry does not fail in the state the claim says it must. -/
theorem C5_counterexample :
    labelSetSinceCreationOrLastExit
      [CMOp.usingLabel "x", CMOp.enterScope 0, CMOp.exitScope 1] = false ∧
    runOps (initClock [])
        [CMOp.usingLabel "x", CMOp.enterScope 0, CMOp.exitScope 1]
      = Except.ok ⟨some "x", some 0, [("x", [1])]⟩ ∧
    (cmEnter ⟨some "x", some 0, [("x", [1])]⟩ 2).isOk = true := by
  refine ⟨rfl, ?_, rfl⟩
  norm_num [runOps, runOp, using_label, cmEnter, cmExit, initClock,
    bankAppend, bankGet, bankFind, bankUpdate]

/-- C6: once a scope has been entered (the label `l` is configured, so
entry succeeds), exit always records `t1 - t0` — the elapsed time since
the start timestamp taken at entry — under the pending label, appending
exactly one sample, and the block's outcome `body` (normal value or
raised error) is passed through unchanged. -/
theorem C6_exit_records {α ε : Type} (s : CMState) (l : String)
    (t0 t1 : ℚ) (body : Except ε α) (hl : s.label = some l) :
    withBlock s t0 t1 body =
      Except.ok (body,
        { label := some l, startTime := some t0,
          bank := bankAppend s.bank l (t1 - t0) }) ∧
    (get_times (bankAppend s.bank l (t1 - t0)) l).1
      = (get_times s.bank l).1 ++ [t1 - t0] := by
  obtain ⟨lab, st, bk⟩ := s
  simp at hl
  subst hl
  exact ⟨by simp [withBlock, cmEnter, cmExit], get_times_bankAppend bk l (t1 - t0)⟩

theorem C6_witness :
    withBlock (⟨some "x", none, []⟩ : CMState) 0 1 (Except.error 7 : Except ℕ ℕ)
      = Except.ok (Except.error 7,
          { label := some "x", startTime := some 0,
            bank := bankAppend [] "x" (1 - 0) }) ∧
    (get_times (bankAppend [] "x" (1 - 0)) "x").1
      = (get_times ([] : Bank) "x").1 ++ [1 - 0] :=
  C6_exit_records ⟨some "x", none, []⟩ "x" 0 1 (Except.error 7) rfl

/-- C7: `clear_times label` removes exactly that label's entry: the label
reverts to the unseen state (every query gives the no-data answer) while
every other label's stored data and all six query results are unchanged;
`clear_times` with no label empties the whole mapping; clearing an unseen
label changes nothing (and raises no error — the operation is total). -/
theorem C7_clear_times (b : Bank) (label : String) :
    bankFind (clear_times b (some label)) label = none ∧
    ((get_times (clear_times b (some label)) label).1 = [] ∧
      (mean_time (clear_times b (some label)) label).1 = 0 ∧
      (median_time (clear_times b (some label)) label).1 = 0 ∧
      (min_time (clear_times b (some label)) label).1 = 0 ∧
      (max_time (clear_times b (some label)) label).1 = 0 ∧
      (total_time (clear_times b (some label)) label).1 = 0) ∧
    (∀ l', l' ≠ label →
      bankFind (clear_times b (some label)) l' = bankFind b l' ∧
      (get_times (clear_times b (some label)) l').1 = (get_times b l').1 ∧
      (mean_time (clear_times b (some label)) l').1 = (mean_time b l').1 ∧
      (median_time (clear_times b (some label)) l').1 = (median_time b l').1 ∧
      (min_time (clear_times b (some label)) l').1 = (min_time b l').1 ∧
      (max_time (clear_times b (some label)) l').1 = (max_time b l').1 ∧
      (total_time (clear_times b (some label)) l').1 = (total_time b l').1) ∧
    (∀ l, bankFind (clear_times b none) l = none) ∧
    (bankFind b label = none → clear_times b (some label) = b) := by
  refine ⟨bankFind_clear_self b label, ?_, ?_, ?_, clear_times_absent b⟩
  · exact queries_noData _ _ (Or.inl (bankFind_clear_self b label))
  · intro l' hl'
    have hfind := bankFind_clear_ne b hl'
    obtain ⟨q1, q2, q3, q4, q5, q6⟩ := queries_fst_congr hfind
    exact ⟨hfind, q1, q2, q3, q4, q5, q6⟩
  · intro l
    simp [clear_times, bankFind]

theorem C7_witness :
    bankFind (clear_times [("a", [1]), ("b", [2])] (some "a")) "b"
      = bankFind [("a", [1]), ("b", [2])] "b" ∧
    (get_times (clear_times [("a", [1]), ("b", [2])] (some "a")) "b").1
      = (get_times [("a", [1]), ("b", [2])] "b").1 ∧
    (mean_time (clear_times [("a", [1]), ("b", [2])] (some "a")) "b").1
      = (mean_time [("a", [1]), ("b", [2])] "b").1 ∧
    (median_time (clear_times [("a", [1]), ("b", [2])] (some "a")) "b").1
      = (median_time [("a", [1]), ("b", [2])] "b").1 ∧
    (min_time (clear_times [("a", [1]), ("b", [2])] (some "a")) "b").1
      = (min_time [("a", [1]), ("b", [2])] "b").1 ∧
    (max_time (clear_times [("a", [1]), ("b", [2])] (some "a")) "b").1
      = (max_time [("a", [1]), ("b", [2])] "b").1 ∧
    (total_time (clear_times [("a", [1]), ("b", [2])] (some "a")) "b").1
      = (total_time [("a", [1]), ("b", [2])] "b").1 :=
  (C7_clear_times [("a", [1]), ("b", [2])] "a").2.2.1 "b" (by decide)

/-- C8 (amended): the sequence `get_times` returns IS a mutable alias of
the registry's stored sequence: a caller-side in-place append of `x` is
visible to subsequent queries — `get_times` then reports the old sequence
with `x` appended, and `total_time` sums the mutated sequence. -/
theorem C8_alias (b : Bank) (label : String) (x : ℚ) :
    (get_times (appendToGetTimesResult b label x) label).1
      = (get_times b label).1 ++ [x] ∧
    (total_time (appendToGetTimesResult b label x) label).1
      = ((get_times b label).1 ++ [x]).sum := by
  have hfind : bankFind (bankAppend b label x) label
      = some ((bankGet b label).1 ++ [x]) := bankFind_bankAppend_self b label x
  refine ⟨get_times_bankAppend b label x, ?_⟩
  show (total_time (bankAppend b label x) label).1
      = ((bankGet b label).1 ++ [x]).sum
  rcases hys : (bankGet b label).1 with _ | ⟨t, ts⟩
  · rw [hys] at hfind
    simp [total_time, bankGet, hfind]
  · rw [hys] at hfind
    simp [total_time, bankGet, hfind]

/-- C8 counterexample: with `[("a", [1])]` stored, appending `5` to the
list returned by `get_times "a"` changes `total_time "a"` from `1` to
`6` — mutating the returned sequence does not leave subsequent registry
queries unchanged. -/
theorem C8_counterexample :
    (total_time [("a", [1])] "a").1 = 1 ∧
    (total_time (appendToGetTimesResult [("a", [1])] "a" 5) "a").1 = 6 ∧
    (total_time (appendToGetTimesResult [("a", [1])] "a" 5) "a").1
      ≠ (total_time [("a", [1])] "a").1 := by
  refine ⟨?_, ?_, ?_⟩ <;>
    norm_num [total_time, appendToGetTimesResult, get_times, bankGet,
      bankFind, bankUpdate]

/-- C9: the handle's state machine.  A fresh clock is unconfigured
(`_label` absent); `using_label` moves it to configured; entry is refused
while unconfigured; from a configured state entry succeeds keeping the
label, exit records and also keeps the label, so after a completed
enter/exit pair the handle is still configured with the same label and
can enter again immediately — or after `using_label` with a different
label. -/
theorem C9_state_machine (b0 : Bank) (s : CMState) (l l' : String)
    (t0 t1 t2 : ℚ) :
    (initClock b0).label = none ∧
    (using_label s l).label = some l ∧
    (s.label = none → cmEnter s t0 = Except.error CMError.configurationError) ∧
    (s.label = some l →
      cmEnter s t0 = Except.ok { s with startTime := some t0 } ∧
      ({ s with startTime := some t0 } : CMState).label = some l ∧
      cmExit { s with startTime := some t0 } t1
        = Except.ok { s with startTime := some t0, bank := bankAppend s.bank l (t1 - t0) } ∧
      ({ s with startTime := some t0, bank := bankAppend s.bank l (t1 - t0) } : CMState).label = some l ∧
      (cmEnter { s with startTime := some t0, bank := bankAppend s.bank l (t1 - t0) } t2).isOk = true ∧
      (cmEnter (using_label { s with startTime := some t0, bank := bankAppend s.bank l (t1 - t0) } l') t2).isOk = true) := by
  obtain ⟨lab, st, bk⟩ := s
  refine ⟨rfl, rfl, ?_, ?_⟩
  · intro hl
    simp at hl
    subst hl
    simp [cmEnter]
  · intro hl
    simp at hl
    subst hl
    exact ⟨by simp [cmEnter], rfl, by simp [cmExit], rfl,
      by simp [cmEnter, Except.isOk, Except.toBool],
      by simp [cmEnter, using_label, Except.isOk, Except.toBool]⟩

theorem C9_witness :
    cmEnter ⟨some "x", none, ([] : Bank)⟩ 0
      = Except.ok ⟨some "x", some 0, ([] : Bank)⟩ ∧
    (⟨some "x", some 0, ([] : Bank)⟩ : CMState).label = some "x" ∧
    cmExit ⟨some "x", some 0, ([] : Bank)⟩ 1
      = Except.ok ⟨some "x", some 0, bankAppend [] "x" (1 - 0)⟩ ∧
    (⟨some "x", some 0, bankAppend [] "x" (1 - 0)⟩ : CMState).label = some "x" ∧
    (cmEnter ⟨some "x", some 0, bankAppend [] "x" (1 - 0)⟩ 2).isOk = true ∧
    (cmEnter (using_label ⟨some "x", some 0, bankAppend [] "x" (1 - 0)⟩ "y") 2).isOk
      = true :=
  (C9_state_machine [] ⟨some "x", none, []⟩ "x" "y" 0 1 2).2.2.2 rfl

end SClock
